import Mathlib

/-!
Verification of the fault dispute game solver core: the action-validity
rule set (`checkRules` and the eight rules of
op-challenger/game/fault/solver/rules.go) and the claim solver
(`isSafeCounter`, `NextMove`, `AttemptStep` of the same file).

The position algebra, the claim/game lookup helpers and the game solver
are not part of the sources; they are modelled from the specification
(spec.md sections 3, 4.A, 4.B and 4.F) and carry a doc comment saying so.
Everything else is a direct translation of the Go source.

Machine integers: trace indices are arbitrary-precision in the source
(big.Int); they are Nat/Int here.  The unbounded ancestor walks of the
source (`for { ... }` loops over the claim parent chain) are modelled
with an explicit fuel parameter; fuel exhaustion (`none`) corresponds to
the Go loop not terminating, and the same fuel is threaded through both
sides of every comparison theorem.
-/

namespace Fault

/-- Modelled from the spec: `Position` (§3), a node of the bisection tree,
as the pair `(depth, index_at_depth)`; the types package is not in src. -/
structure Position where
  depth : Nat
  indexAtDepth : Nat
deriving DecidableEq, Repr

/-- Modelled from the spec: the generalized index `g = 2^depth + index_at_depth`. -/
def Position.gindex (p : Position) : Nat := 2 ^ p.depth + p.indexAtDepth

/-- Modelled from the spec: `attack(p)` is the left child, `g ↦ 2g`. -/
def Position.attack (p : Position) : Position := ⟨p.depth + 1, 2 * p.indexAtDepth⟩

/-- Modelled from the spec: `defend(p)` is `g ↦ 2·(g+1)`. -/
def Position.defend (p : Position) : Position := ⟨p.depth + 1, 2 * p.indexAtDepth + 2⟩

/-- Modelled from the spec: `move_right(p)` keeps the depth and adds one
to the index at depth. -/
def Position.moveRight (p : Position) : Position := ⟨p.depth, p.indexAtDepth + 1⟩

/-- Modelled from the spec: the trace index of a position at depth `d ≤ D`
is `(index_at_depth + 1) · 2^(D − d) − 1`, the trace index of its
right-most leaf descendant. -/
def Position.traceIndex (p : Position) (maxDepth : Nat) : Nat :=
  (p.indexAtDepth + 1) * 2 ^ (maxDepth - p.depth) - 1

/-- Modelled from the spec: `is_root(p)` iff `g = 1`. -/
def Position.isRootPosition (p : Position) : Bool := p.gindex == 1

/-- Claim record (§3).  Values and addresses are abstracted to `Nat`;
`parentContractIndex` is an `Int` because the root uses `-1`. -/
structure Claim where
  value : Nat
  position : Position
  claimant : Nat
  counteredBy : Nat
  contractIndex : Nat
  parentContractIndex : Int
deriving DecidableEq, Repr

/-- The zero value of the Go `types.Claim` struct, used by the source as
the "no claim yet" sentinel in the prestate walks. -/
def emptyClaim : Claim := ⟨0, ⟨0, 0⟩, 0, 0, 0, 0⟩

def Claim.depth (c : Claim) : Nat := c.position.depth

def Claim.traceIndex (c : Claim) (maxDepth : Nat) : Nat := c.position.traceIndex maxDepth

def Claim.isRoot (c : Claim) : Bool := c.position.isRootPosition

/-- Game state (§3): the ordered claim list plus the maximum depth. -/
structure Game where
  claims : List Claim
  maxDepth : Nat

/-- Indexing `game.Claims()[i]`: `none` models the Go slice-bounds panic. -/
def Game.claimAt (g : Game) (i : Int) : Option Claim :=
  if i < 0 then none else g.claims.get? i.toNat

/-- Modelled from the spec: `parent(claim)` (§4.B) looks the parent up by
`parent_idx` and errors when there is none; the game model is not in src. -/
def Game.getParent (g : Game) (c : Claim) : Option Claim :=
  g.claimAt c.parentContractIndex

/-- Modelled from the spec: `ancestor_with_trace_index(c, t)` (§4.B) walks
`c → parent → …` until a claim with trace index `t` is found, or gives
`none` once the root is passed.  The outer `Option` is the fuel. -/
def ancestorWithTraceIndex (g : Game) (t : Int) : Nat → Claim → Option (Option Claim)
  | 0, _ => none
  | fuel + 1, c =>
    if (c.traceIndex g.maxDepth : Int) = t then some (some c)
    else if c.isRoot then some none
    else
      match g.getParent c with
      | none => some none
      | some p => ancestorWithTraceIndex g t fuel p

/-- Modelled from the spec: `is_duplicate` (§4.B) checks the key
`(value, position, parent_idx)` against the existing claims. -/
def Game.isDuplicate (g : Game) (v : Nat) (pos : Position) (parentIdx : Int) : Bool :=
  g.claims.any fun c =>
    c.value == v && c.position == pos && c.parentContractIndex == parentIdx

/-- Action type: `MOVE` or `STEP`. -/
inductive ActionType
  | move
  | step
deriving DecidableEq, Repr

/-- Action record (§3). -/
structure Action where
  type : ActionType
  parentIdx : Int
  isAttack : Bool
  value : Nat
  preState : Nat
  proofData : Nat
  oracleData : Nat
deriving DecidableEq, Repr

/-- The validator's `types.TraceProvider`: the honest value at a
position; `none` models a `Get` error. -/
def TraceProvider := Position → Option Nat

/-- Error tags standing for the distinct error values produced by the
eight rules (rules.go carries formatted messages; only identity matters). -/
inductive ErrTag
  | parentMissing
  | moveAtMaxDepth
  | stepBeforeMaxDepth
  | duplicateMove
  | defendRoot
  | noParent
  | traceGetPoison
  | poisonedPrestate
  | noPoststate
  | traceGetStep
  | failedStep
  | noPrestate
  | traceGetPrestate
  | steppingPoisoned
  | leafPoisoned
deriving DecidableEq, Repr

/-- `resultingPosition` (rules.go) applied to the already-fetched parent
claim: parent position for a STEP, attack/defend child for a MOVE. -/
def resultingPositionOf (parent : Claim) (a : Action) : Position :=
  if a.type = ActionType.step then parent.position
  else if a.isAttack then parent.position.attack
  else parent.position.defend

/-- `resultingPosition` (rules.go): indexes `game.Claims()[action.ParentIdx]`;
`none` models the panic on an out-of-range parent index. -/
def resultingPosition (g : Game) (a : Action) : Option Position :=
  (g.claimAt a.parentIdx).map (fun parent => resultingPositionOf parent a)

/-- One rule outcome: `none` is abnormal termination (panic or a
non-terminating walk), `some none` is OK, `some (some e)` is a failure. -/
abbrev RuleResult := Option (Option ErrTag)

/-- `parentMustExist` (rules.go). -/
def parentMustExist (g : Game) (a : Action) (_ : TraceProvider) : RuleResult :=
  some (if (g.claims.length : Int) ≤ a.parentIdx ∨ a.parentIdx < 0
        then some ErrTag.parentMissing else none)

/-- `onlyStepAtMaxDepth` (rules.go). -/
def onlyStepAtMaxDepth (g : Game) (a : Action) (_ : TraceProvider) : RuleResult :=
  if a.type = ActionType.step then some none
  else
    match g.claimAt a.parentIdx with
    | none => none
    | some parent =>
      some (if parent.depth ≥ g.maxDepth then some ErrTag.moveAtMaxDepth else none)

/-- `onlyMoveBeforeMaxDepth` (rules.go). -/
def onlyMoveBeforeMaxDepth (g : Game) (a : Action) (_ : TraceProvider) : RuleResult :=
  if a.type = ActionType.move then some none
  else
    match g.claimAt a.parentIdx with
    | none => none
    | some parent =>
      some (if parent.depth < g.maxDepth then some ErrTag.stepBeforeMaxDepth else none)

/-- `doNotDuplicateExistingMoves` (rules.go). -/
def doNotDuplicateExistingMoves (g : Game) (a : Action) (_ : TraceProvider) : RuleResult :=
  match resultingPosition g a with
  | none => none
  | some pos =>
    some (if g.isDuplicate a.value pos a.parentIdx then some ErrTag.duplicateMove else none)

/-- `doNotDefendRootClaim` (rules.go). -/
def doNotDefendRootClaim (g : Game) (a : Action) (_ : TraceProvider) : RuleResult :=
  match g.claimAt a.parentIdx with
  | none => none
  | some parent =>
    some (if parent.position.isRootPosition && !a.isAttack
          then some ErrTag.defendRoot else none)

/-- The prestate walk of `avoidPoisonedPrestate` (rules.go): walk the
parent chain keeping the claim with the highest trace index strictly
below `bound`; `none` is fuel exhaustion, `some none` a `GetParent`
error, `some (some acc)` the final accumulator (possibly `emptyClaim`). -/
def poisonLoop (g : Game) (bound : Nat) : Nat → Claim → Claim → Option (Option Claim)
  | 0, _, _ => none
  | fuel + 1, claim, pre =>
    let claimIdx := claim.traceIndex g.maxDepth
    let pre' := if claimIdx < bound ∧ (pre = emptyClaim ∨ pre.traceIndex g.maxDepth < claimIdx)
                then claim else pre
    if claim.isRoot then some (some pre')
    else
      match g.getParent claim with
      | none => some none
      | some p => poisonLoop g bound fuel p pre'

/-- `avoidPoisonedPrestate` (rules.go). -/
def avoidPoisonedPrestate (fuel : Nat) (g : Game) (a : Action) (tr : TraceProvider) : RuleResult :=
  if a.type = ActionType.step then some none
  else
    match g.claimAt a.parentIdx with
    | none => none
    | some parent =>
      let movePosition := resultingPositionOf parent a
      let honestTraceIndex := movePosition.traceIndex g.maxDepth
      match poisonLoop g honestTraceIndex fuel parent emptyClaim with
      | none => none
      | some none => some (some ErrTag.noParent)
      | some (some preStateClaim) =>
        if preStateClaim = emptyClaim then some none
        else
          match tr preStateClaim.position with
          | none => some (some ErrTag.traceGetPoison)
          | some correctValue =>
            some (if correctValue ≠ preStateClaim.value
                  then some ErrTag.poisonedPrestate else none)

/-- `detectFailedStep` (rules.go).  The depth difference is taken in `Int`
mirroring the wrap-around parity of the Go uint64 subtraction. -/
def detectFailedStep (fuel : Nat) (g : Game) (a : Action) (tr : TraceProvider) : RuleResult :=
  if a.type ≠ ActionType.step then some none
  else
    match g.claimAt a.parentIdx with
    | none => none
    | some claim =>
      let position := resultingPositionOf claim a
      if position.depth ≠ g.maxDepth then some none
      else
        let honestTraceIndex := position.traceIndex g.maxDepth
        let poststateIndex : Int :=
          if !a.isAttack then (honestTraceIndex : Int) + 1 else (honestTraceIndex : Int)
        match ancestorWithTraceIndex g poststateIndex fuel claim with
        | none => none
        | some none => some (some ErrTag.noPoststate)
        | some (some poststateClaim) =>
          match tr poststateClaim.position with
          | none => some (some ErrTag.traceGetStep)
          | some correctValue =>
            let validStep := correctValue == poststateClaim.value
            let parentPostAgree :=
              ((claim.depth : Int) - (poststateClaim.depth : Int)) % 2 == 0
            some (if parentPostAgree == validStep then some ErrTag.failedStep else none)

/-- `detectPoisonedStepPrestate` (rules.go). -/
def detectPoisonedStepPrestate (fuel : Nat) (g : Game) (a : Action) (tr : TraceProvider) :
    RuleResult :=
  match g.claimAt a.parentIdx with
  | none => none
  | some claim =>
    let position := resultingPositionOf claim a
    if position.depth ≠ g.maxDepth then some none
    else
      let honestTraceIndex := position.traceIndex g.maxDepth
      let prestateIndex : Int :=
        if a.isAttack || a.type == ActionType.move
        then (honestTraceIndex : Int) - 1 else (honestTraceIndex : Int)
      if prestateIndex < 0 then some none
      else
        match ancestorWithTraceIndex g prestateIndex fuel claim with
        | none => none
        | some none => some (some ErrTag.noPrestate)
        | some (some preStateClaim) =>
          match tr preStateClaim.position with
          | none => some (some ErrTag.traceGetPrestate)
          | some correctValue =>
            if correctValue ≠ preStateClaim.value
            then some (some (if a.type = ActionType.step
                             then ErrTag.steppingPoisoned else ErrTag.leafPoisoned))
            else some none

/-- `checkRules` (rules.go): run the eight rules in order and join the
failures; an abnormal rule (panic / non-termination) aborts the whole
evaluation, as in Go. -/
def checkRules (fuel : Nat) (g : Game) (a : Action) (tr : TraceProvider) :
    Option (List ErrTag) := do
  let r1 ← parentMustExist g a tr
  let r2 ← onlyStepAtMaxDepth g a tr
  let r3 ← onlyMoveBeforeMaxDepth g a tr
  let r4 ← doNotDuplicateExistingMoves g a tr
  let r5 ← doNotDefendRootClaim g a tr
  let r6 ← avoidPoisonedPrestate fuel g a tr
  let r7 ← detectPoisonedStepPrestate fuel g a tr
  let r8 ← detectFailedStep fuel g a tr
  pure (([r1, r2, r3, r4, r5, r6, r7, r8]).filterMap id)

/-- The solver-side `types.TraceAccessor` (§4.C, consumed by interface):
the honest value, and the step witness data, at a position. -/
structure TraceAccessor where
  get : Game → Claim → Position → Option Nat
  getStepData : Game → Claim → Position → Option (Nat × Nat × Nat)

/-- `claimSolver` (rules.go): trace accessor plus the game depth. -/
structure ClaimSolver where
  trace : TraceAccessor
  gameDepth : Nat

/-- Solver-level errors: the named sentinels plus propagated accessor /
lookup failures (identity only; Go wraps them in messages). -/
inductive SolverErr
  | gameDepthReached
  | stepNonLeaf
  | traceFailed
  | safetyFailed
  | stepDataFailed
deriving DecidableEq, Repr

/-- `agreeWithClaim` (rules.go): the accessor value at the claim position
equals the claim value; `none` propagates the accessor error. -/
def agreeWithClaim (s : ClaimSolver) (g : Game) (c : Claim) : Option Bool :=
  (s.trace.get g c c.position).map (fun v => v == c.value)

/-- The prestate walk of `isSafeCounter` (rules.go): identical shape to
`poisonLoop` but translated from the solver's own loop. -/
def safeLoop (g : Game) (bound : Nat) : Nat → Claim → Claim → Option (Option Claim)
  | 0, _, _ => none
  | fuel + 1, claim, closest =>
    let claimIdx := claim.traceIndex g.maxDepth
    let closest' :=
      if claimIdx < bound ∧ (closest = emptyClaim ∨ closest.traceIndex g.maxDepth < claimIdx)
      then claim else closest
    if claim.isRoot then some (some closest')
    else
      match g.getParent claim with
      | none => some none
      | some p => safeLoop g bound fuel p closest'

/-- `isSafeCounter` (rules.go): `none` models an error return (the Go
`(false, err)`), `some b` the verdict. -/
def isSafeCounter (s : ClaimSolver) (fuel : Nat) (g : Game) (target : Claim)
    (pos : Position) : Option Bool :=
  let honestTraceIdx := pos.traceIndex g.maxDepth
  match safeLoop g honestTraceIdx fuel target emptyClaim with
  | none => none
  | some none => none
  | some (some closestPrestateClaim) =>
    if closestPrestateClaim = emptyClaim then some true
    else agreeWithClaim s g closestPrestateClaim

/-- `attack` (rules.go): respond with the honest value at the attack
position of the claim. -/
def solverAttack (s : ClaimSolver) (g : Game) (c : Claim) : Except SolverErr (Option Claim) :=
  let position := c.position.attack
  match s.trace.get g c position with
  | none => .error SolverErr.traceFailed
  | some v => .ok (some ⟨v, position, 0, 0, 0, (c.contractIndex : Int)⟩)

/-- `defend` (rules.go): `nil, nil` on the root, otherwise the honest
value at the defend position. -/
def solverDefend (s : ClaimSolver) (g : Game) (c : Claim) : Except SolverErr (Option Claim) :=
  if c.isRoot then .ok none
  else
    let position := c.position.defend
    match s.trace.get g c position with
    | none => .error SolverErr.traceFailed
    | some v => .ok (some ⟨v, position, 0, 0, 0, (c.contractIndex : Int)⟩)

/-- Modelled from the spec: the `AgreedClaimTracker` (§3) is a set of
contract indices of claims the challenger itself would have made; the
tracker implementation is not in src. -/
def isAgreed (agreed : List Nat) (c : Claim) : Bool :=
  agreed.contains c.contractIndex

/-- `NextMove` (rules.go). -/
def NextMove (s : ClaimSolver) (fuel : Nat) (c : Claim) (g : Game) (agreed : List Nat) :
    Except SolverErr (Option Claim) :=
  if c.depth = s.gameDepth then .error SolverErr.gameDepthReached
  else if isAgreed agreed c then .ok none
  else
    match agreeWithClaim s g c with
    | none => .error SolverErr.traceFailed
    | some agree =>
      let pos := if agree then c.position.defend else c.position.attack
      match isSafeCounter s fuel g c pos with
      | none => .error SolverErr.safetyFailed
      | some safe =>
        if !safe then .ok none
        else if agree then solverDefend s g c else solverAttack s g c

/-- `StepData` (rules.go). -/
structure StepData where
  leafClaim : Claim
  isAttack : Bool
  preState : Nat
  proofData : Nat
  oracleData : Nat
deriving DecidableEq, Repr

/-- `AttemptStep` (rules.go). -/
def AttemptStep (s : ClaimSolver) (fuel : Nat) (g : Game) (c : Claim) (agreed : List Nat) :
    Except SolverErr (Option StepData) :=
  if c.depth ≠ s.gameDepth then .error SolverErr.stepNonLeaf
  else if isAgreed agreed c then .ok none
  else
    match agreeWithClaim s g c with
    | none => .error SolverErr.traceFailed
    | some claimCorrect =>
      let position := if claimCorrect = false then c.position else c.position.moveRight
      match isSafeCounter s fuel g c position with
      | none => .error SolverErr.safetyFailed
      | some safe =>
        if !safe then .ok none
        else
          match s.trace.getStepData g c position with
          | none => .error SolverErr.stepDataFailed
          | some (preState, proofData, oracleData) =>
            .ok (some ⟨c, !claimCorrect, preState, proofData, oracleData⟩)

/-- Modelled from the spec: the loop body of `calculate_next_actions`
(§4.F); the game solver file is not in src.  For each claim in insertion
order, below max depth consult `next_move` and emit a MOVE (recording
the new claim's sequentially assigned contract index as agreed), at max
depth consult `attempt_step` and emit a STEP; errors abort. -/
def calcLoop (s : ClaimSolver) (fuel : Nat) (g : Game) :
    List Claim → List Nat → Nat → List Action → Except SolverErr (List Action)
  | [], _, _, acc => .ok acc
  | c :: rest, agreed, fresh, acc =>
    if c.depth < s.gameDepth then
      match NextMove s fuel c g agreed with
      | .error e => .error e
      | .ok none => calcLoop s fuel g rest agreed fresh acc
      | .ok (some mv) =>
        let act : Action :=
          ⟨ActionType.move, mv.parentContractIndex,
           decide (mv.position = c.position.attack), mv.value, 0, 0, 0⟩
        calcLoop s fuel g rest (agreed ++ [g.claims.length + fresh]) (fresh + 1) (acc ++ [act])
    else
      match AttemptStep s fuel g c agreed with
      | .error e => .error e
      | .ok none => calcLoop s fuel g rest agreed fresh acc
      | .ok (some sd) =>
        let act : Action :=
          ⟨ActionType.step, (sd.leafClaim.contractIndex : Int), sd.isAttack, 0,
           sd.preState, sd.proofData, sd.oracleData⟩
        calcLoop s fuel g rest agreed fresh (acc ++ [act])

/-- Modelled from the spec: `calculate_next_actions(game)` (§4.F), not in src. -/
def calculateNextActions (s : ClaimSolver) (fuel : Nat) (g : Game) :
    Except SolverErr (List Action) :=
  calcLoop s fuel g g.claims [] 0 []

/-- The walk chain: the claims visited by the prestate loops from a
starting claim up to the root (`none` when the walk does not complete). -/
def chainOf (g : Game) : Nat → Claim → Option (List Claim)
  | 0, _ => none
  | fuel + 1, c =>
    if c.isRoot then some [c]
    else
      match g.getParent c with
      | none => none
      | some p => (chainOf g fuel p).map (fun l => c :: l)

/-- The accumulator update both prestate loops perform at one claim. -/
def updSel (maxDepth bound : Nat) (pre c : Claim) : Claim :=
  if c.traceIndex maxDepth < bound ∧
     (pre = emptyClaim ∨ pre.traceIndex maxDepth < c.traceIndex maxDepth)
  then c else pre

/-- The claim both prestate loops select over a completed walk chain. -/
def selFold (maxDepth bound : Nat) (l : List Claim) : Claim :=
  l.foldl (updSel maxDepth bound) emptyClaim

section Witnesses

/-- Honest trace used by the concrete witness games: the value at a
position is its generalized index. -/
def wHonest : Position → Nat := fun p => p.gindex

/-- Witness trace provider: total, honest. -/
def wProvider : TraceProvider := fun p => some (wHonest p)

/-- Witness trace accessor: total, honest, with step data derived from
the position. -/
def wAccessor : TraceAccessor :=
  ⟨fun _ _ p => some (wHonest p), fun _ _ p => some (p.gindex, 0, 0)⟩

/-- Witness solver at game depth 1. -/
def wSolver1 : ClaimSolver := ⟨wAccessor, 1⟩

/-- Witness solver at game depth 2. -/
def wSolver2 : ClaimSolver := ⟨wAccessor, 2⟩

/-- A correct root claim for the witness games (honest value 1). -/
def wRoot : Claim := ⟨1, ⟨0, 0⟩, 0, 0, 0, -1⟩

/-- An incorrect root claim for the witness games. -/
def wRootBad : Claim := ⟨9, ⟨0, 0⟩, 0, 0, 0, -1⟩

/-- Single incorrect-root game of depth 1. -/
def wGame2 : Game := ⟨[wRootBad], 1⟩

/-- A MOVE action with an out-of-range parent index. -/
def wActOut : Action := ⟨ActionType.move, 5, true, 0, 0, 0, 0⟩

/-- A valid attack MOVE on the root of `wGame2`. -/
def wActAtk : Action := ⟨ActionType.move, 0, true, 3, 0, 0, 0⟩

/-- An incorrect leaf claim at position (1,0) whose parent is the root. -/
def wLeafBad : Claim := ⟨7, ⟨1, 0⟩, 0, 0, 1, 0⟩

/-- Depth-1 game with an incorrect root and an incorrect leaf. -/
def wGame8 : Game := ⟨[wRootBad, wLeafBad], 1⟩

/-- The step data `AttemptStep` produces on `wLeafBad` in `wGame8`. -/
def wStep8 : StepData := ⟨wLeafBad, true, 2, 0, 0⟩

/-- An incorrect claim at leaf position (2,0) (honest value 4). -/
def wc1 : Claim := ⟨9, ⟨2, 0⟩, 0, 0, 1, 0⟩

/-- An incorrect claim at leaf position (2,1) (honest value 5) whose
parent chain goes through `wc1`. -/
def wc2 : Claim := ⟨7, ⟨2, 1⟩, 0, 0, 2, 1⟩

/-- Depth-2 game whose leaf `wc2` has the dishonest `wc1` as the closest
prestate on its parent chain. -/
def wGame7 : Game := ⟨[wRootBad, wc1, wc2], 2⟩

/-- Single correct-root game of depth 2. -/
def wGame6 : Game := ⟨[wRoot], 2⟩

/-- Claim at position (1,0) for the tie-breaking witness (trace index 1
at depth 2, honest value 2). -/
def wc10a : Claim := ⟨50, ⟨1, 0⟩, 0, 0, 1, 0⟩

/-- Claim at position (2,1) for the tie-breaking witness: same trace
index 1 as `wc10a` but deeper; its parent chain goes through `wc10a`. -/
def wc10t : Claim := ⟨60, ⟨2, 1⟩, 0, 0, 2, 1⟩

/-- Root claim for the tie-breaking witness game. -/
def wc10r : Claim := ⟨3, ⟨0, 0⟩, 0, 0, 0, -1⟩

/-- Depth-2 game in which `wc10t` and its claim ancestor `wc10a` share
the trace index 1. -/
def wGame10 : Game := ⟨[wc10r, wc10a, wc10t], 2⟩

end Witnesses

/-! Helper lemmas shared by several theorems. -/

theorem claimAt_of_bounds (g : Game) (i : Int) (h0 : 0 ≤ i) (h1 : i < (g.claims.length : Int)) :
    ∃ c, g.claimAt i = some c := by
  unfold Game.claimAt
  rw [if_neg (by omega)]
  have hlt : i.toNat < g.claims.length := by omega
  exact ⟨_, List.get?_eq_get hlt⟩

theorem safeLoop_eq_poisonLoop (g : Game) (bound : Nat) :
    ∀ (fuel : Nat) (c pre : Claim), safeLoop g bound fuel c pre = poisonLoop g bound fuel c pre := by
  intro fuel
  induction fuel with
  | zero => intro c pre; rfl
  | succ n ih =>
    intro c pre
    simp only [safeLoop, poisonLoop]
    by_cases hr : c.isRoot
    · simp [hr]
    · simp only [hr, Bool.false_eq_true, if_false]
      cases hp : g.getParent c with
      | none => rfl
      | some p => exact ih p _

/-- Claim C2, counterexample: on a MOVE whose parent index is out of
range, the rule evaluation does not return the join of the eight rule
results: `parentMustExist` reports its failure but `onlyStepAtMaxDepth`
indexes `game.Claims()[action.ParentIdx]` and panics (modelled `none`),
so `checkRules` aborts instead of accumulating. -/
theorem spec_c2_cex :
    checkRules 9 wGame2 wActOut wProvider = none ∧
    parentMustExist wGame2 wActOut wProvider = some (some ErrTag.parentMissing) ∧
    onlyStepAtMaxDepth wGame2 wActOut wProvider = none :=
  ⟨rfl, rfl, rfl⟩

/-- Claim C2, amended: for every game and action whose `parent_idx` is in
range (and whose ancestor walks terminate), `checkRules` evaluates each
of the eight rules independently, each rule produces at most one error,
the result is the join (list) of all failures, and it is OK (the empty
join) exactly when no rule fails. -/
theorem spec_c2 (g : Game) (a : Action) (tr : TraceProvider) (fuel : Nat)
    (hp0 : 0 ≤ a.parentIdx) (hp1 : a.parentIdx < (g.claims.length : Int))
    (h6 : avoidPoisonedPrestate fuel g a tr ≠ none)
    (h7 : detectPoisonedStepPrestate fuel g a tr ≠ none)
    (h8 : detectFailedStep fuel g a tr ≠ none) :
    ∃ r1 r2 r3 r4 r5 r6 r7 r8 : Option ErrTag,
      parentMustExist g a tr = some r1 ∧
      onlyStepAtMaxDepth g a tr = some r2 ∧
      onlyMoveBeforeMaxDepth g a tr = some r3 ∧
      doNotDuplicateExistingMoves g a tr = some r4 ∧
      doNotDefendRootClaim g a tr = some r5 ∧
      avoidPoisonedPrestate fuel g a tr = some r6 ∧
      detectPoisonedStepPrestate fuel g a tr = some r7 ∧
      detectFailedStep fuel g a tr = some r8 ∧
      checkRules fuel g a tr = some (([r1, r2, r3, r4, r5, r6, r7, r8]).filterMap id) ∧
      (checkRules fuel g a tr = some [] ↔
        r1 = none ∧ r2 = none ∧ r3 = none ∧ r4 = none ∧
        r5 = none ∧ r6 = none ∧ r7 = none ∧ r8 = none) := by
  obtain ⟨parent, hparent⟩ := claimAt_of_bounds g a.parentIdx hp0 hp1
  have h1 : parentMustExist g a tr = some none := by
    unfold parentMustExist
    rw [if_neg (by omega)]
  obtain ⟨r2, h2⟩ : ∃ r, onlyStepAtMaxDepth g a tr = some r := by
    unfold onlyStepAtMaxDepth
    rw [hparent]
    split
    · exact ⟨none, rfl⟩
    · exact ⟨_, rfl⟩
  obtain ⟨r3, h3⟩ : ∃ r, onlyMoveBeforeMaxDepth g a tr = some r := by
    unfold onlyMoveBeforeMaxDepth
    rw [hparent]
    split
    · exact ⟨none, rfl⟩
    · exact ⟨_, rfl⟩
  obtain ⟨r4, h4⟩ : ∃ r, doNotDuplicateExistingMoves g a tr = some r := by
    unfold doNotDuplicateExistingMoves resultingPosition
    rw [hparent]
    exact ⟨_, rfl⟩
  obtain ⟨r5, h5⟩ : ∃ r, doNotDefendRootClaim g a tr = some r := by
    unfold doNotDefendRootClaim
    rw [hparent]
    exact ⟨_, rfl⟩
  obtain ⟨r6, h6'⟩ := Option.ne_none_iff_exists'.mp h6
  obtain ⟨r7, h7'⟩ := Option.ne_none_iff_exists'.mp h7
  obtain ⟨r8, h8'⟩ := Option.ne_none_iff_exists'.mp h8
  have hcheck : checkRules fuel g a tr =
      some (([none, r2, r3, r4, r5, r6, r7, r8] : List (Option ErrTag)).filterMap id) := by
    simp only [checkRules, h1, h2, h3, h4, h5, h6', h7', h8', Option.bind_eq_bind,
      Option.some_bind, Option.pure_def]
  refine ⟨none, r2, r3, r4, r5, r6, r7, r8, h1, h2, h3, h4, h5, h6', h7', h8', hcheck, ?_⟩
  rw [hcheck]
  simp only [Option.some.injEq, List.filterMap_eq_nil_iff, List.forall_mem_cons,
    List.not_mem_nil, false_implies, forall_const, id_eq, and_true, true_and]

/-- Witness for the amended C2 on a concrete in-range action. -/
theorem spec_c2_witness :
    ∃ r1 r2 r3 r4 r5 r6 r7 r8 : Option ErrTag,
      parentMustExist wGame2 wActAtk wProvider = some r1 ∧
      onlyStepAtMaxDepth wGame2 wActAtk wProvider = some r2 ∧
      onlyMoveBeforeMaxDepth wGame2 wActAtk wProvider = some r3 ∧
      doNotDuplicateExistingMoves wGame2 wActAtk wProvider = some r4 ∧
      doNotDefendRootClaim wGame2 wActAtk wProvider = some r5 ∧
      avoidPoisonedPrestate 9 wGame2 wActAtk wProvider = some r6 ∧
      detectPoisonedStepPrestate 9 wGame2 wActAtk wProvider = some r7 ∧
      detectFailedStep 9 wGame2 wActAtk wProvider = some r8 ∧
      checkRules 9 wGame2 wActAtk wProvider = some (([r1, r2, r3, r4, r5, r6, r7, r8]).filterMap id) ∧
      (checkRules 9 wGame2 wActAtk wProvider = some [] ↔
        r1 = none ∧ r2 = none ∧ r3 = none ∧ r4 = none ∧
        r5 = none ∧ r6 = none ∧ r7 = none ∧ r8 = none) :=
  spec_c2 wGame2 wActAtk wProvider 9 (by decide) (by decide)
    (by decide) (by decide) (by decide)

theorem attemptStep_at_depth_ne_stepNonLeaf (s : ClaimSolver) (fuel : Nat) (g : Game)
    (c : Claim) (agreed : List Nat) (hd : c.depth = s.gameDepth) :
    AttemptStep s fuel g c agreed ≠ .error SolverErr.stepNonLeaf := by
  intro h
  unfold AttemptStep at h
  rw [if_neg (by simp [hd])] at h
  by_cases ha : isAgreed agreed c
  · rw [if_pos ha] at h; simp at h
  · rw [if_neg ha] at h
    cases hw : agreeWithClaim s g c with
    | none => simp only [hw] at h; simp at h
    | some b =>
      simp only [hw] at h
      cases hs : isSafeCounter s fuel g c
          (if b = false then c.position else c.position.moveRight) with
      | none => simp only [hs] at h; simp at h
      | some safe =>
        simp only [hs] at h
        cases safe with
        | false => simp at h
        | true =>
          simp only [Bool.not_true, Bool.false_eq_true, if_false] at h
          cases hsd : s.trace.getStepData g c
              (if b = false then c.position else c.position.moveRight) with
          | none => simp only [hsd] at h; simp at h
          | some t => obtain ⟨p, q, r⟩ := t; simp only [hsd] at h; simp at h

/-- Claim C7: `AttemptStep` returns the sentinel `ErrStepNonLeafNode`
exactly when the claim depth differs from the game depth; at game depth,
an agreed claim or a rejected safety check yields `nil, nil` (no error,
and in particular never `ErrStepIgnoreInvalidPath`, which the source
declares but does not return). -/
theorem spec_c7 :
    (∀ (s : ClaimSolver) (fuel : Nat) (g : Game) (c : Claim) (agreed : List Nat),
       AttemptStep s fuel g c agreed = .error SolverErr.stepNonLeaf ↔ c.depth ≠ s.gameDepth) ∧
    (∀ (s : ClaimSolver) (fuel : Nat) (g : Game) (c : Claim) (agreed : List Nat),
       c.depth = s.gameDepth → isAgreed agreed c = true →
       AttemptStep s fuel g c agreed = .ok none) ∧
    (∀ (s : ClaimSolver) (fuel : Nat) (g : Game) (c : Claim) (agreed : List Nat) (b : Bool),
       c.depth = s.gameDepth → isAgreed agreed c = false →
       agreeWithClaim s g c = some b →
       isSafeCounter s fuel g c (if b = false then c.position else c.position.moveRight) =
         some false →
       AttemptStep s fuel g c agreed = .ok none) := by
  refine ⟨?_, ?_, ?_⟩
  · intro s fuel g c agreed
    by_cases hd : c.depth = s.gameDepth
    · simp only [hd, ne_eq, not_true_eq_false, iff_false]
      exact attemptStep_at_depth_ne_stepNonLeaf s fuel g c agreed hd
    · simp only [ne_eq, hd, not_false_eq_true, iff_true]
      unfold AttemptStep
      rw [if_pos hd]
  · intro s fuel g c agreed hd ha
    unfold AttemptStep
    rw [if_neg (by simp [hd]), if_pos ha]
  · intro s fuel g c agreed b hd ha hw hs
    unfold AttemptStep
    rw [if_neg (by simp [hd]), if_neg (by simp [ha])]
    simp only [hw, hs, Bool.not_false, if_true]

/-- Witness for C7: the three cases at concrete inputs of `wGame7`. -/
theorem spec_c7_witness :
    AttemptStep wSolver2 5 wGame7 wRootBad [] = .error SolverErr.stepNonLeaf ∧
    AttemptStep wSolver2 5 wGame7 wc2 [2] = .ok none ∧
    AttemptStep wSolver2 5 wGame7 wc2 [] = .ok none :=
  ⟨(spec_c7.1 wSolver2 5 wGame7 wRootBad []).mpr (by decide),
   spec_c7.2.1 wSolver2 5 wGame7 wc2 [2] (by decide) (by decide),
   spec_c7.2.2 wSolver2 5 wGame7 wc2 [] false (by decide) (by decide) rfl rfl⟩

/-- Claim C8: a `StepData` result of `AttemptStep` on a leaf claim `c`
has `leaf = c`, `is_attack = ¬agree_with_claim`, and its prestate, proof
and oracle data come from the trace accessor at `c.position` on an
attack and at `move_right(c.position)` on a defence. -/
theorem spec_c8 (s : ClaimSolver) (fuel : Nat) (g : Game) (c : Claim) (agreed : List Nat)
    (sd : StepData) (h : AttemptStep s fuel g c agreed = .ok (some sd)) :
    ∃ correct : Bool, agreeWithClaim s g c = some correct ∧ sd.leafClaim = c ∧
      sd.isAttack = (!correct) ∧
      s.trace.getStepData g c
          (if correct = true then c.position.moveRight else c.position) =
        some (sd.preState, sd.proofData, sd.oracleData) := by
  unfold AttemptStep at h
  by_cases hd : c.depth ≠ s.gameDepth
  · rw [if_pos hd] at h; simp at h
  · rw [if_neg hd] at h
    by_cases ha : isAgreed agreed c
    · rw [if_pos ha] at h; simp at h
    · rw [if_neg ha] at h
      cases hw : agreeWithClaim s g c with
      | none => simp only [hw] at h; simp at h
      | some b =>
        simp only [hw] at h
        cases hs : isSafeCounter s fuel g c
            (if b = false then c.position else c.position.moveRight) with
        | none => simp only [hs] at h; simp at h
        | some safe =>
          simp only [hs] at h
          cases safe with
          | false => simp at h
          | true =>
            simp only [Bool.not_true, Bool.false_eq_true, if_false] at h
            cases hsd : s.trace.getStepData g c
                (if b = false then c.position else c.position.moveRight) with
            | none => simp only [hsd] at h; simp at h
            | some t =>
              obtain ⟨p, q, r⟩ := t
              simp only [hsd, Except.ok.injEq, Option.some.injEq] at h
              subst h
              refine ⟨b, rfl, rfl, rfl, ?_⟩
              cases b with
              | false => simpa using hsd
              | true => simpa using hsd

/-- Witness for C8 on the concrete attack step of `wGame8`. -/
theorem spec_c8_witness :
    ∃ correct : Bool, agreeWithClaim wSolver1 wGame8 wLeafBad = some correct ∧
      wStep8.leafClaim = wLeafBad ∧ wStep8.isAttack = (!correct) ∧
      wSolver1.trace.getStepData wGame8 wLeafBad
          (if correct = true then wLeafBad.position.moveRight else wLeafBad.position) =
        some (wStep8.preState, wStep8.proofData, wStep8.oracleData) :=
  spec_c8 wSolver1 5 wGame8 wLeafBad [] wStep8 rfl

theorem isRootPosition_iff (p : Position) : p.isRootPosition = true ↔ p = ⟨0, 0⟩ := by
  obtain ⟨d, i⟩ := p
  simp only [Position.isRootPosition, Position.gindex, beq_iff_eq, Position.mk.injEq]
  constructor
  · intro h
    match d, h with
    | 0, h => exact ⟨rfl, by omega⟩
    | k + 1, h =>
      have h2 : 1 < 2 ^ (k + 1) := Nat.one_lt_two_pow_iff.mpr (Nat.succ_ne_zero k)
      omega
  · rintro ⟨rfl, rfl⟩; rfl

theorem root_traceIndex_lt_defend (D : Nat) :
    Position.traceIndex ⟨0, 0⟩ D < Position.traceIndex ⟨1, 2⟩ D := by
  simp only [Position.traceIndex, Nat.sub_zero]
  cases D with
  | zero => norm_num
  | succ k =>
    have h1 : 1 ≤ 2 ^ k := Nat.one_le_two_pow
    have hp : 2 ^ (k + 1) = 2 * 2 ^ k := by rw [pow_succ]; ring
    simp only [Nat.add_sub_cancel]
    omega

/-- Claim C6: on a root claim below the game depth, outside the agreed
set, whose value agrees with the honest trace, `NextMove` returns
`nil, nil` (no defence of the root, no trap, no error); and the game
solver on a game containing only a correct root emits no actions. -/
theorem spec_c6 :
    (∀ (s : ClaimSolver) (g : Game) (c : Claim) (agreed : List Nat) (fuel : Nat),
       c.position.isRootPosition = true → c.depth < s.gameDepth →
       isAgreed agreed c = false →
       s.trace.get g c c.position = some c.value →
       1 ≤ fuel →
       NextMove s fuel c g agreed = .ok none) ∧
    calculateNextActions wSolver2 3 wGame6 = .ok [] := by
  constructor
  · intro s g c agreed fuel hroot hdep hagree hget hfuel
    have hpos : c.position = ⟨0, 0⟩ := (isRootPosition_iff c.position).mp hroot
    obtain ⟨k, rfl⟩ : ∃ k, fuel = k + 1 := ⟨fuel - 1, by omega⟩
    have hw : agreeWithClaim s g c = some true := by
      unfold agreeWithClaim
      rw [hget]
      simp
    have hcroot : c.isRoot = true := hroot
    have h1 : c.traceIndex g.maxDepth < (c.position.defend).traceIndex g.maxDepth := by
      show c.position.traceIndex g.maxDepth < (c.position.defend).traceIndex g.maxDepth
      rw [hpos]
      exact root_traceIndex_lt_defend g.maxDepth
    have hloop : safeLoop g ((c.position.defend).traceIndex g.maxDepth) (k + 1) c emptyClaim
        = some (some c) := by
      simp only [safeLoop]
      rw [if_pos hcroot, if_pos (And.intro h1 (Or.inl trivial))]
    have hsafe : isSafeCounter s (k + 1) g c (c.position.defend) = some true := by
      simp only [isSafeCounter]
      rw [hloop]
      show (if c = emptyClaim then some true else agreeWithClaim s g c) = some true
      by_cases hc : c = emptyClaim
      · rw [if_pos hc]
      · rw [if_neg hc]; exact hw
    unfold NextMove
    rw [if_neg (by omega), if_neg (by simp [hagree])]
    simp only [hw, if_true, hsafe, Bool.not_true, Bool.false_eq_true, if_false]
    unfold solverDefend
    rw [if_pos hcroot]
  · rfl

/-- Witness for the C6 `NextMove` statement at the concrete correct root. -/
theorem spec_c6_witness : NextMove wSolver2 1 wRoot wGame6 [] = .ok none :=
  spec_c6.1 wSolver2 wGame6 wRoot [] 1 (by decide) (by decide) (by decide) rfl (by decide)

/-- Claim C4: `detectPoisonedStepPrestate` at a resulting position at max
depth decrements the trace index exactly on a MOVE or an attacking STEP,
accepts a negative prestate index, fails when the required ancestor is
missing, and otherwise fails precisely when the ancestor value differs
from the correct trace — on MOVE actions as a genuine rule failure too. -/
theorem spec_c4 (g : Game) (a : Action) (tr : TraceProvider) (fuel : Nat) (c : Claim) (pi : Int)
    (hc : g.claimAt a.parentIdx = some c)
    (hd : (resultingPositionOf c a).depth = g.maxDepth)
    (hpi : pi = if a.type = ActionType.move ∨ (a.type = ActionType.step ∧ a.isAttack = true)
        then ((resultingPositionOf c a).traceIndex g.maxDepth : Int) - 1
        else ((resultingPositionOf c a).traceIndex g.maxDepth : Int)) :
    (pi < 0 → detectPoisonedStepPrestate fuel g a tr = some none) ∧
    (0 ≤ pi → ancestorWithTraceIndex g pi fuel c = some none →
       detectPoisonedStepPrestate fuel g a tr = some (some ErrTag.noPrestate)) ∧
    (∀ anc v, 0 ≤ pi → ancestorWithTraceIndex g pi fuel c = some (some anc) →
       tr anc.position = some v →
       ((detectPoisonedStepPrestate fuel g a tr = some none ↔ v = anc.value) ∧
        (v ≠ anc.value → detectPoisonedStepPrestate fuel g a tr =
           some (some (if a.type = ActionType.step
                       then ErrTag.steppingPoisoned else ErrTag.leafPoisoned))))) := by
  unfold detectPoisonedStepPrestate
  simp only [hc]
  rw [if_neg (by simp [hd])]
  have hpieq : (if a.isAttack || a.type == ActionType.move
      then ((resultingPositionOf c a).traceIndex g.maxDepth : Int) - 1
      else ((resultingPositionOf c a).traceIndex g.maxDepth : Int)) = pi := by
    rw [hpi]
    cases htype : a.type <;> cases hatt : a.isAttack <;> simp
  rw [hpieq]
  refine ⟨?_, ?_, ?_⟩
  · intro hneg
    rw [if_pos hneg]
  · intro hpos hanc
    rw [if_neg (by omega)]
    simp only [hanc]
  · intro anc v hpos hanc htr
    rw [if_neg (by omega)]
    simp only [hanc, htr]
    constructor
    · by_cases hv : v = anc.value <;> simp [hv]
    · intro hv
      rw [if_pos hv]

/-- Witness for C4: the valid attack move of `wGame2` ends at max depth
with prestate index −1, which the rule accepts. -/
theorem spec_c4_witness : detectPoisonedStepPrestate 3 wGame2 wActAtk wProvider = some none :=
  (spec_c4 wGame2 wActAtk wProvider 3 wRootBad (-1) rfl rfl (by decide)).1 (by decide)

/-- Claim C5: `detectFailedStep` accepts every non-STEP action; on a STEP
at max depth it adds one to the trace index exactly when defending,
fails when the required poststate ancestor is missing, and otherwise
fails exactly when `parent_post_agree` (the depth difference being even)
coincides with `valid_step` (the ancestor matching the correct trace). -/
theorem spec_c5 (g : Game) (a : Action) (tr : TraceProvider) (fuel : Nat) :
    (a.type ≠ ActionType.step → detectFailedStep fuel g a tr = some none) ∧
    (∀ (c : Claim) (pidx : Int), a.type = ActionType.step →
       g.claimAt a.parentIdx = some c → c.position.depth = g.maxDepth →
       pidx = (if a.isAttack = false then (c.position.traceIndex g.maxDepth : Int) + 1
               else (c.position.traceIndex g.maxDepth : Int)) →
       (ancestorWithTraceIndex g pidx fuel c = some none →
          detectFailedStep fuel g a tr = some (some ErrTag.noPoststate)) ∧
       (∀ anc v, ancestorWithTraceIndex g pidx fuel c = some (some anc) →
          tr anc.position = some v →
          (detectFailedStep fuel g a tr = some none ↔
             ¬((((c.depth : Int) - (anc.depth : Int)) % 2 = 0) ↔ v = anc.value)))) := by
  constructor
  · intro h
    unfold detectFailedStep
    rw [if_pos h]
  · intro c pidx htype hc hdep hpidx
    unfold detectFailedStep
    rw [if_neg (by simp [htype])]
    simp only [hc]
    have hrp : resultingPositionOf c a = c.position := by
      unfold resultingPositionOf
      rw [if_pos htype]
    simp only [hrp]
    rw [if_neg (by simp [hdep])]
    have hpe : (if !a.isAttack then (c.position.traceIndex g.maxDepth : Int) + 1
        else (c.position.traceIndex g.maxDepth : Int)) = pidx := by
      rw [hpidx]
      cases a.isAttack <;> simp
    rw [hpe]
    refine ⟨?_, ?_⟩
    · intro hanc
      simp only [hanc]
    · intro anc v hanc htr
      simp only [hanc, htr]
      by_cases hpar : ((c.depth : Int) - (anc.depth : Int)) % 2 = 0 <;>
        by_cases hv : v = anc.value <;>
          simp [hpar, hv, Claim.depth]

/-- Witness for C5: a concrete attack STEP whose poststate ancestor is
the stepped-on leaf itself; the leaf is wrong, the depths agree, so the
step is valid and the rule accepts. -/
theorem spec_c5_witness :
    detectFailedStep 3 wGame8 (⟨ActionType.step, 1, true, 0, 0, 0, 0⟩ : Action) wProvider =
      some none :=
  (((spec_c5 wGame8 ⟨ActionType.step, 1, true, 0, 0, 0, 0⟩ wProvider 3).2 wLeafBad 0
      rfl rfl rfl (by decide)).2 wLeafBad 2 rfl rfl).mpr (by decide)

/-- Claim C3: on a MOVE with a valid parent, when the validator's trace
provider and the solver's trace accessor return the same honest value at
every position, `avoidPoisonedPrestate` accepts exactly when
`isSafeCounter` on the parent claim at the resulting position is safe:
both run the identical closest-left-prestate walk with the same fuel. -/
theorem spec_c3 (g : Game) (a : Action) (tr : TraceProvider) (s : ClaimSolver)
    (h : Position → Nat) (fuel : Nat) (parent : Claim)
    (htr : ∀ p, tr p = some (h p))
    (hacc : ∀ (g' : Game) (c : Claim) (p : Position), s.trace.get g' c p = some (h p))
    (hmove : a.type = ActionType.move)
    (hparent : g.claimAt a.parentIdx = some parent) :
    (avoidPoisonedPrestate fuel g a tr = some none ↔
     isSafeCounter s fuel g parent (resultingPositionOf parent a) = some true) := by
  unfold avoidPoisonedPrestate
  rw [if_neg (by simp [hmove])]
  simp only [hparent, isSafeCounter]
  rw [safeLoop_eq_poisonLoop]
  cases hl : poisonLoop g ((resultingPositionOf parent a).traceIndex g.maxDepth)
      fuel parent emptyClaim with
  | none => simp
  | some o =>
    cases o with
    | none => simp
    | some acc =>
      show (if acc = emptyClaim then some none
            else match tr acc.position with
                 | none => some (some ErrTag.traceGetPoison)
                 | some correctValue =>
                   some (if correctValue ≠ acc.value
                         then some ErrTag.poisonedPrestate else none)) = some none ↔
           (if acc = emptyClaim then some true else agreeWithClaim s g acc) = some true
      by_cases hacc0 : acc = emptyClaim
      · simp [hacc0]
      · rw [if_neg hacc0, if_neg hacc0, htr acc.position]
        unfold agreeWithClaim
        rw [hacc g acc acc.position]
        by_cases hv : h acc.position = acc.value <;> simp [hv]

/-- Witness for C3 at the concrete attack move of `wGame2`. -/
theorem spec_c3_witness :
    avoidPoisonedPrestate 3 wGame2 wActAtk wProvider = some none ↔
    isSafeCounter wSolver1 3 wGame2 wRootBad (resultingPositionOf wRootBad wActAtk) =
      some true :=
  spec_c3 wGame2 wActAtk wProvider wSolver1 wHonest 3 wRootBad (fun _ => rfl)
    (fun _ _ _ => rfl) rfl rfl

theorem poisonLoop_chain (g : Game) (bound : Nat) :
    ∀ (fuel : Nat) (c pre : Claim) (l : List Claim), chainOf g fuel c = some l →
      poisonLoop g bound fuel c pre =
        some (some (l.foldl (updSel g.maxDepth bound) pre)) := by
  intro fuel
  induction fuel with
  | zero => intro c pre l hc; simp [chainOf] at hc
  | succ n ih =>
    intro c pre l hc
    simp only [chainOf] at hc
    simp only [poisonLoop]
    by_cases hr : c.isRoot
    · rw [if_pos hr] at hc
      rw [if_pos hr]
      injection hc with hc
      subst hc
      rfl
    · rw [if_neg hr] at hc
      rw [if_neg hr]
      cases hp : g.getParent c with
      | none => rw [hp] at hc; simp at hc
      | some p =>
        rw [hp] at hc
        simp only [hp]
        obtain ⟨l', hl', rfl⟩ := Option.map_eq_some'.mp hc
        simp only [List.foldl_cons]
        exact ih p (updSel g.maxDepth bound pre c) l' hl'

theorem foldl_updSel_acc (D bound : Nat) :
    ∀ (rest : List Claim) (acc : Claim), acc ≠ emptyClaim → emptyClaim ∉ rest →
      (List.foldl (updSel D bound) acc rest = acc ∧
         ∀ c ∈ rest, c.traceIndex D < bound → c.traceIndex D ≤ acc.traceIndex D) ∨
      (∃ l₁ l₂, rest = l₁ ++ List.foldl (updSel D bound) acc rest :: l₂ ∧
         (List.foldl (updSel D bound) acc rest).traceIndex D < bound ∧
         acc.traceIndex D < (List.foldl (updSel D bound) acc rest).traceIndex D ∧
         List.foldl (updSel D bound) acc rest ≠ emptyClaim ∧
         (∀ c ∈ l₁, c.traceIndex D < bound →
            c.traceIndex D < (List.foldl (updSel D bound) acc rest).traceIndex D) ∧
         (∀ c ∈ l₂, c.traceIndex D < bound →
            c.traceIndex D ≤ (List.foldl (updSel D bound) acc rest).traceIndex D)) := by
  intro rest
  induction rest with
  | nil =>
    intro acc _ _
    left
    exact ⟨rfl, by simp⟩
  | cons c rest ih =>
    intro acc ha hne
    have hnec : c ≠ emptyClaim := fun h => hne (List.mem_cons.mpr (Or.inl h.symm))
    have hner : emptyClaim ∉ rest := fun h => hne (List.mem_cons.mpr (Or.inr h))
    simp only [List.foldl_cons]
    by_cases hupd : c.traceIndex D < bound ∧
        (acc = emptyClaim ∨ acc.traceIndex D < c.traceIndex D)
    · have hu : updSel D bound acc c = c := by unfold updSel; rw [if_pos hupd]
      rw [hu]
      have hlt : acc.traceIndex D < c.traceIndex D := by
        rcases hupd.2 with he | hlt
        · exact absurd he ha
        · exact hlt
      rcases ih c hnec hner with ⟨heq, hall⟩ | ⟨l₁, l₂, hsplit, hb, hgt, hnemp, h1, h2⟩
      · right
        refine ⟨[], rest, ?_, ?_, ?_, ?_, by simp, ?_⟩
        · simp [heq]
        · rw [heq]; exact hupd.1
        · rw [heq]; exact hlt
        · rw [heq]; exact hnec
        · intro x hx hxb; rw [heq]; exact hall x hx hxb
      · right
        refine ⟨c :: l₁, l₂, ?_, hb, Nat.lt_trans hlt hgt, hnemp, ?_, h2⟩
        · rw [List.cons_append, ← hsplit]
        · intro x hx hxb
          rcases List.mem_cons.mp hx with rfl | hx'
          · exact hgt
          · exact h1 x hx' hxb
    · have hu : updSel D bound acc c = acc := by unfold updSel; rw [if_neg hupd]
      rw [hu]
      have hcle : c.traceIndex D < bound → c.traceIndex D ≤ acc.traceIndex D := by
        intro hcb
        by_contra hgt
        push_neg at hgt
        exact hupd ⟨hcb, Or.inr hgt⟩
      rcases ih acc ha hner with ⟨heq, hall⟩ | ⟨l₁, l₂, hsplit, hb, hgt, hnemp, h1, h2⟩
      · left
        refine ⟨heq, ?_⟩
        intro x hx hxb
        rcases List.mem_cons.mp hx with rfl | hx'
        · rw [← heq] at hcle ⊢
          exact hcle hxb
        · exact hall x hx' hxb
      · right
        refine ⟨c :: l₁, l₂, ?_, hb, hgt, hnemp, ?_, h2⟩
        · rw [List.cons_append, ← hsplit]
        · intro x hx hxb
          rcases List.mem_cons.mp hx with rfl | hx'
          · exact Nat.lt_of_le_of_lt (hcle hxb) hgt
          · exact h1 x hx' hxb

theorem foldl_updSel_empty (D bound : Nat) :
    ∀ (l : List Claim), emptyClaim ∉ l →
      (selFold D bound l = emptyClaim ∧ ∀ c ∈ l, ¬ c.traceIndex D < bound) ∨
      (∃ l₁ l₂, l = l₁ ++ selFold D bound l :: l₂ ∧
         (selFold D bound l).traceIndex D < bound ∧
         selFold D bound l ≠ emptyClaim ∧
         (∀ c ∈ l₁, c.traceIndex D < bound →
            c.traceIndex D < (selFold D bound l).traceIndex D) ∧
         (∀ c ∈ l₂, c.traceIndex D < bound →
            c.traceIndex D ≤ (selFold D bound l).traceIndex D)) := by
  intro l
  induction l with
  | nil => intro _; left; simp [selFold]
  | cons c rest ih =>
    intro hne
    have hnec : c ≠ emptyClaim := fun h => hne (List.mem_cons.mpr (Or.inl h.symm))
    have hner : emptyClaim ∉ rest := fun h => hne (List.mem_cons.mpr (Or.inr h))
    simp only [selFold] at ih ⊢
    simp only [List.foldl_cons]
    by_cases hq : c.traceIndex D < bound
    · have hu : updSel D bound emptyClaim c = c := by
        unfold updSel; rw [if_pos ⟨hq, Or.inl rfl⟩]
      rw [hu]
      rcases foldl_updSel_acc D bound rest c hnec hner with
        ⟨heq, hall⟩ | ⟨l₁, l₂, hsplit, hb, hgt, hnemp, h1, h2⟩
      · right
        refine ⟨[], rest, ?_, ?_, ?_, by simp, ?_⟩
        · simp [heq]
        · rw [heq]; exact hq
        · rw [heq]; exact hnec
        · intro x hx hxb; rw [heq]; exact hall x hx hxb
      · right
        refine ⟨c :: l₁, l₂, ?_, hb, hnemp, ?_, h2⟩
        · rw [List.cons_append, ← hsplit]
        · intro x hx hxb
          rcases List.mem_cons.mp hx with rfl | hx'
          · exact hgt
          · exact h1 x hx' hxb
    · have hu : updSel D bound emptyClaim c = emptyClaim := by
        unfold updSel; rw [if_neg (fun h => hq h.1)]
      rw [hu]
      rcases ih hner with ⟨heq, hall⟩ | ⟨l₁, l₂, hsplit, hb, hnemp, h1, h2⟩
      · left
        refine ⟨heq, ?_⟩
        intro x hx
        rcases List.mem_cons.mp hx with rfl | hx'
        · exact hq
        · exact hall x hx'
      · right
        refine ⟨c :: l₁, l₂, ?_, hb, hnemp, ?_, h2⟩
        · rw [List.cons_append, ← hsplit]
        · intro x hx hxb
          rcases List.mem_cons.mp hx with rfl | hx'
          · exact absurd hxb hq
          · exact h1 x hx' hxb

/-- Claim C10: over a completed walk chain both prestate walks
(`avoidPoisonedPrestate`'s and `isSafeCounter`'s) select the same claim:
the first one encountered walking upward among those attaining the
greatest trace index strictly below the bound (every strictly earlier
chain entry below the bound has a strictly smaller trace index); when
the chain depths strictly decrease, any other tied claim is strictly
shallower than the selected one; and it is precisely the selected
claim's value that both functions check against the honest trace. -/
theorem spec_c10 (g : Game) (fuel : Nat) (bound : Nat) (target : Claim) (l : List Claim)
    (hchain : chainOf g fuel target = some l)
    (hne : emptyClaim ∉ l) :
    (poisonLoop g bound fuel target emptyClaim =
        some (some (selFold g.maxDepth bound l)) ∧
     safeLoop g bound fuel target emptyClaim =
        some (some (selFold g.maxDepth bound l))) ∧
    (selFold g.maxDepth bound l ≠ emptyClaim →
       ∃ l₁ l₂, l = l₁ ++ selFold g.maxDepth bound l :: l₂ ∧
         (selFold g.maxDepth bound l).traceIndex g.maxDepth < bound ∧
         (∀ c' ∈ l₁, c'.traceIndex g.maxDepth < bound →
            c'.traceIndex g.maxDepth < (selFold g.maxDepth bound l).traceIndex g.maxDepth) ∧
         (∀ c' ∈ l₂, c'.traceIndex g.maxDepth < bound →
            c'.traceIndex g.maxDepth ≤ (selFold g.maxDepth bound l).traceIndex g.maxDepth)) ∧
    (List.Pairwise (fun x y => y.depth < x.depth) l →
       ∀ c' ∈ l,
         c'.traceIndex g.maxDepth = (selFold g.maxDepth bound l).traceIndex g.maxDepth →
         c'.traceIndex g.maxDepth < bound → c' ≠ selFold g.maxDepth bound l →
         c'.depth < (selFold g.maxDepth bound l).depth) ∧
    (∀ (a : Action) (tr : TraceProvider) (s : ClaimSolver) (v : Nat),
       a.type = ActionType.move → g.claimAt a.parentIdx = some target →
       bound = (resultingPositionOf target a).traceIndex g.maxDepth →
       selFold g.maxDepth bound l ≠ emptyClaim →
       tr (selFold g.maxDepth bound l).position = some v →
       ((avoidPoisonedPrestate fuel g a tr = some none ↔
           v = (selFold g.maxDepth bound l).value) ∧
        isSafeCounter s fuel g target (resultingPositionOf target a) =
          agreeWithClaim s g (selFold g.maxDepth bound l))) := by
  have hpl : poisonLoop g bound fuel target emptyClaim =
      some (some (selFold g.maxDepth bound l)) :=
    poisonLoop_chain g bound fuel target emptyClaim l hchain
  refine ⟨⟨hpl, ?_⟩, ?_, ?_, ?_⟩
  · rw [safeLoop_eq_poisonLoop]
    exact hpl
  · intro hsel
    rcases foldl_updSel_empty g.maxDepth bound l hne with
      ⟨heq, _⟩ | ⟨l₁, l₂, hsplit, hb, _, h1, h2⟩
    · exact absurd heq hsel
    · exact ⟨l₁, l₂, hsplit, hb, h1, h2⟩
  · intro hpw c' hmem hidx hqb hne'
    rcases foldl_updSel_empty g.maxDepth bound l hne with
      ⟨_, hnone⟩ | ⟨l₁, l₂, hsplit, _, _, h1, _⟩
    · exact absurd hqb (hnone c' hmem)
    · rw [hsplit] at hmem
      rcases List.mem_append.mp hmem with hm1 | hm2
      · exact absurd hidx (Nat.ne_of_lt (h1 c' hm1 hqb))
      · rcases List.mem_cons.mp hm2 with heq | hm2'
        · exact absurd heq hne'
        · have hp2 : List.Pairwise (fun x y => y.depth < x.depth)
              (selFold g.maxDepth bound l :: l₂) := by
            rw [hsplit] at hpw
            exact (List.pairwise_append.mp hpw).2.1
          exact (List.pairwise_cons.mp hp2).1 c' hm2'
  · intro a tr s v hmove hat hbound hsel htrv
    constructor
    · unfold avoidPoisonedPrestate
      rw [if_neg (by simp [hmove])]
      simp only [hat]
      rw [← hbound, hpl]
      show (if selFold g.maxDepth bound l = emptyClaim then some none
            else match tr (selFold g.maxDepth bound l).position with
                 | none => some (some ErrTag.traceGetPoison)
                 | some correctValue =>
                   some (if correctValue ≠ (selFold g.maxDepth bound l).value
                         then some ErrTag.poisonedPrestate else none)) = some none ↔
           v = (selFold g.maxDepth bound l).value
      rw [if_neg hsel, htrv]
      by_cases hv : v = (selFold g.maxDepth bound l).value <;> simp [hv]
    · simp only [isSafeCounter]
      rw [safeLoop_eq_poisonLoop, ← hbound, hpl]
      show (if selFold g.maxDepth bound l = emptyClaim then some true
            else agreeWithClaim s g (selFold g.maxDepth bound l)) =
           agreeWithClaim s g (selFold g.maxDepth bound l)
      rw [if_neg hsel]

/-- Witness for C10: in `wGame10` the deep claim `wc10t` and its
shallower ancestor `wc10a` tie at trace index 1 below bound 2, and both
walks select the deeper `wc10t`. -/
theorem spec_c10_witness :
    poisonLoop wGame10 2 5 wc10t emptyClaim = some (some (selFold 2 2 [wc10t, wc10a, wc10r])) ∧
    safeLoop wGame10 2 5 wc10t emptyClaim = some (some (selFold 2 2 [wc10t, wc10a, wc10r])) :=
  (spec_c10 wGame10 5 2 wc10t [wc10t, wc10a, wc10r] rfl (by decide)).1

end Fault
